import Mathlib

/-!
# Shallow embedding of the tux-validation I²C discovery and validation engine

This file embeds the core of `src/i2c.rs` and `src/os_release.rs` of the
`tux-validation` repository in Lean 4 and proves (or refutes) the frozen
claims about it.

Modelling conventions:
* Rust `u8`/`u16` addresses and bus ids become `Nat` (no arithmetic that
  could overflow occurs in the embedded code paths).
* The filesystem and the I²C hardware are oracles passed explicitly:
  `pathExists : String → Bool` models `Path::exists`, and
  `openDev : Nat → OpenOutcome` models the outcome of
  `LinuxI2CDevice::new` (plus the subsequent SMBus quick-write) at each
  address.
* Fallible Rust functions returning `anyhow::Result` become `Except ScanErr`.
* `Vec::push` loops become structural recursions / filters that produce
  elements in the same order as the pushes.
-/

set_option maxRecDepth 8000

/-- The canonical I²C client-address range `0x08..=0x77` visited by the
scanners (`for addr in 0x08..=0x77` in `scan_hw_probe` / `scan_sysfs`). -/
def addrRange : List Nat := List.range' 0x08 112

/-- Outcome of `LinuxI2CDevice::new(&bus_path, addr)` followed (on success)
by `dev.smbus_write_quick(false)`, as distinguished by the `match` in
`scan_hw_probe`:
* `opened ackOk` — open succeeded; `ackOk` records whether the quick-write
  returned `Ok` (`is_ok()`),
* `errnoErr code` — `LinuxI2CError::Errno(code)` (ioctl-level errno),
* `ioNotFound` / `ioPermissionDenied` / `ioOther` — `LinuxI2CError::Io`
  with the corresponding `std::io::ErrorKind`. -/
inductive OpenOutcome where
  | opened (ackOk : Bool)
  | errnoErr (code : Nat)
  | ioNotFound
  | ioPermissionDenied
  | ioOther
  deriving Repr, DecidableEq

/-- Fatal scanner errors (the two `anyhow::bail!` sites in `scan_hw_probe`). -/
inductive ScanErr where
  | busNotFound (busId : Nat)
  | permissionDenied (busId : Nat)
  deriving Repr, DecidableEq

/-- Linux `EBUSY` errno value, compared against by
`Errno::from_i32(code) == Errno::EBUSY`. -/
def EBUSY : Nat := 16

/-- The per-address loop body of `scan_hw_probe`, folded over the address
list.  Produces `(unbound, bound)` in push order, or aborts with the first
fatal error, exactly as the Rust `for addr in 0x08..=0x77` loop with its
two `anyhow::bail!` branches.  Non-fatal errors (`Errno` other than
`EBUSY`, `Io` other than `NotFound`/`PermissionDenied`) only log and
continue. -/
def scanHwLoop (busId : Nat) (f : Nat → OpenOutcome) :
    List Nat → Except ScanErr (List Nat × List Nat)
  | [] => .ok ([], [])
  | a :: rest =>
    match f a with
    | .opened ackOk =>
        (scanHwLoop busId f rest).map fun (u, b) =>
          (if ackOk then a :: u else u, b)
    | .errnoErr code =>
        (scanHwLoop busId f rest).map fun (u, b) =>
          (u, if code = EBUSY then a :: b else b)
    | .ioNotFound => .error (.busNotFound busId)
    | .ioPermissionDenied => .error (.permissionDenied busId)
    | .ioOther =>
        (scanHwLoop busId f rest).map fun (u, b) => (u, b)

/-- Hex digit character, as produced by Rust's `{:x}` formatting
(lowercase). -/
def hexChar (n : Nat) : Char :=
  if n < 10 then Char.ofNat (48 + n) else Char.ofNat (87 + n)

/-- Little helper: hex digits of `n`, most significant first, with fuel
(the fuel `n + 1` always suffices). -/
def hexDigitsAux : Nat → Nat → List Char
  | 0, _ => []
  | fuel + 1, n =>
    if n < 16 then [hexChar n]
    else hexDigitsAux fuel (n / 16) ++ [hexChar (n % 16)]

/-- The hex digits of `n`, lowercase, most significant first. -/
def hexDigits (n : Nat) : List Char := hexDigitsAux (n + 1) n

/-- Rust `{:04x}` formatting: lowercase hex, left-padded with zeros to at
least four digits. -/
def hex4 (n : Nat) : String :=
  ⟨List.replicate (4 - (hexDigits n).length) '0' ++ hexDigits n⟩

/-- The sysfs device path `format!("/sys/bus/i2c/devices/{}-{:04x}", bus_id, addr)`. -/
def sysfsDevPath (busId addr : Nat) : String :=
  "/sys/bus/i2c/devices/" ++ Nat.repr busId ++ "-" ++ hex4 addr

/-- The Linux bus scanner `LinuxI2cScanner { bus_id }`, with the hardware
and the filesystem supplied as oracles. -/
structure LinuxI2cScanner where
  bus_id : Nat
  openDev : Nat → OpenOutcome
  pathExists : String → Bool

/-- `LinuxI2cScanner::scan_hw_probe`: probe every address in
`0x08..=0x77` on `/dev/i2c-<bus_id>`. -/
def LinuxI2cScanner.scan_hw_probe (s : LinuxI2cScanner) :
    Except ScanErr (List Nat × List Nat) :=
  scanHwLoop s.bus_id s.openDev addrRange

/-- `LinuxI2cScanner::scan_sysfs`: for every address in `0x08..=0x77`,
include it iff `/sys/bus/i2c/devices/<bus_id>-<addr:04x>` exists. -/
def LinuxI2cScanner.scan_sysfs (s : LinuxI2cScanner) :
    Except ScanErr (List Nat) :=
  .ok (addrRange.filter fun addr => s.pathExists (sysfsDevPath s.bus_id addr))

/-- An arbitrary scanner, as seen by `validate_bus(scanner: &impl I2cScanner, ..)`:
just the two results its trait methods would return. -/
structure I2cScanner where
  scan_hw_probe : Except ScanErr (List Nat × List Nat)
  scan_sysfs : Except ScanErr (List Nat)

/-- View of a `LinuxI2cScanner` as an abstract `I2cScanner`. -/
def LinuxI2cScanner.toScanner (s : LinuxI2cScanner) : I2cScanner :=
  ⟨s.scan_hw_probe, s.scan_sysfs⟩

/-- `I2cValidationResult` of `src/i2c.rs` (field order as in the source). -/
structure I2cValidationResult where
  missing : List Nat
  unexpected : List Nat
  present : List Nat
  probed : List Nat
  deriving Repr, DecidableEq

/-- The first loop of `validate_bus`: classify each expected address into
`present`/`missing`, tagging hardware-probed ones.  Returns
`(present, missing, probed)` in push order. -/
def classifyExpected (hwUnbound hwBound detectedSysfs : List Nat) :
    List Nat → List Nat × List Nat × List Nat
  | [] => ([], [], [])
  | a :: rest =>
    let r := classifyExpected hwUnbound hwBound detectedSysfs rest
    if a ∈ hwUnbound ∨ a ∈ hwBound then (a :: r.1, r.2.1, a :: r.2.2)
    else if a ∈ detectedSysfs then (a :: r.1, r.2.1, r.2.2)
    else (r.1, a :: r.2.1, r.2.2)

/-- The fourth loop of `validate_bus`: append each sysfs-detected address
that is neither expected nor already in `unexpected`. -/
def addSysfsUnexpected (expected : List Nat) (acc : List Nat) :
    List Nat → List Nat
  | [] => acc
  | a :: rest =>
    if a ∉ expected ∧ a ∉ acc then addSysfsUnexpected expected (acc ++ [a]) rest
    else addSysfsUnexpected expected acc rest

/-- The reconciliation core of `validate_bus` (its four loops), given the
scan results. -/
def validateCore (hwUnbound hwBound detectedSysfs expected : List Nat) :
    I2cValidationResult :=
  let c := classifyExpected hwUnbound hwBound detectedSysfs expected
  let extraUnbound := hwUnbound.filter fun a => decide (a ∉ expected)
  let extraBound := hwBound.filter fun a => decide (a ∉ expected)
  { missing := c.2.1
    unexpected := addSysfsUnexpected expected (extraUnbound ++ extraBound) detectedSysfs
    present := c.1
    probed := c.2.2 ++ extraUnbound ++ extraBound }

/-- `validate_bus(scanner, expected_addresses, enable_hw_probe)`. -/
def validate_bus (scanner : I2cScanner) (expected : List Nat)
    (enable_hw_probe : Bool) : Except ScanErr I2cValidationResult := do
  let (hwUnbound, hwBound) ←
    if enable_hw_probe then scanner.scan_hw_probe else pure ([], [])
  let detectedSysfs ← scanner.scan_sysfs
  pure (validateCore hwUnbound hwBound detectedSysfs expected)

instance {ε α : Type} [DecidableEq ε] [DecidableEq α] : DecidableEq (Except ε α) :=
  fun x y =>
    match x, y with
    | .ok a, .ok b => decidable_of_iff (a = b) ⟨congrArg _, Except.ok.inj⟩
    | .error a, .error b => decidable_of_iff (a = b) ⟨congrArg _, Except.error.inj⟩
    | .ok _, .error _ => .isFalse fun h => Except.noConfusion h
    | .error _, .ok _ => .isFalse fun h => Except.noConfusion h

example :
    validate_bus ⟨.ok ([], []), .ok [0x1b, 0x50]⟩ [0x1b, 0x50, 0x68] false =
      .ok ⟨[0x68], [], [0x1b, 0x50], []⟩ := by decide

example :
    validate_bus ⟨.ok ([0x50, 0x77], []), .ok [0x50]⟩ [0x50] true =
      .ok ⟨[], [0x77], [0x50], [0x50, 0x77]⟩ := by decide

/-! ## Characterisation of the reconciliation loops -/

theorem mem_classify_present (hu hb ds : List Nat) (E : List Nat) (a : Nat) :
    a ∈ (classifyExpected hu hb ds E).1 ↔ a ∈ E ∧ (a ∈ hu ∨ a ∈ hb ∨ a ∈ ds) := by
  induction E with
  | nil => simp [classifyExpected]
  | cons x rest ih =>
    simp only [classifyExpected]
    split_ifs with h1 h2 <;> simp only [List.mem_cons, ih] <;> aesop

theorem mem_classify_missing (hu hb ds : List Nat) (E : List Nat) (a : Nat) :
    a ∈ (classifyExpected hu hb ds E).2.1 ↔
      a ∈ E ∧ ¬(a ∈ hu ∨ a ∈ hb ∨ a ∈ ds) := by
  induction E with
  | nil => simp [classifyExpected]
  | cons x rest ih =>
    simp only [classifyExpected]
    split_ifs with h1 h2 <;> simp only [List.mem_cons, ih] <;> aesop

theorem mem_classify_probed (hu hb ds : List Nat) (E : List Nat) (a : Nat) :
    a ∈ (classifyExpected hu hb ds E).2.2 ↔ a ∈ E ∧ (a ∈ hu ∨ a ∈ hb) := by
  induction E with
  | nil => simp [classifyExpected]
  | cons x rest ih =>
    simp only [classifyExpected]
    split_ifs with h1 h2 <;> simp only [List.mem_cons, ih] <;> aesop

theorem mem_addSysfsUnexpected (E : List Nat) :
    ∀ ds acc a, a ∈ addSysfsUnexpected E acc ds ↔ a ∈ acc ∨ (a ∈ ds ∧ a ∉ E) := by
  intro ds
  induction ds with
  | nil => intro acc a; simp [addSysfsUnexpected]
  | cons d rest ih =>
    intro acc a
    simp only [addSysfsUnexpected]
    split_ifs with h
    · rw [ih]
      simp only [List.mem_append, List.mem_cons, List.mem_singleton]
      aesop
    · rw [ih]
      simp only [List.mem_cons]
      push_neg at h
      by_cases hd : a = d
      · subst hd
        by_cases haE : a ∈ E <;> by_cases hacc : a ∈ acc <;> aesop
      · aesop

theorem addSysfsUnexpected_nodup (E : List Nat) :
    ∀ ds acc, acc.Nodup → (addSysfsUnexpected E acc ds).Nodup := by
  intro ds
  induction ds with
  | nil => intro acc h; simpa [addSysfsUnexpected] using h
  | cons d rest ih =>
    intro acc hacc
    simp only [addSysfsUnexpected]
    split_ifs with h
    · refine ih _ ?_
      simp only [List.nodup_append, List.nodup_cons, List.nodup_nil]
      refine ⟨hacc, by simp, ?_⟩
      intro x hx hx1
      simp only [List.mem_singleton] at hx1
      exact h.2 (hx1 ▸ hx)
    · exact ih _ hacc

theorem validateCore_missing (hu hb ds E : List Nat) :
    (validateCore hu hb ds E).missing = (classifyExpected hu hb ds E).2.1 := rfl

theorem validateCore_present (hu hb ds E : List Nat) :
    (validateCore hu hb ds E).present = (classifyExpected hu hb ds E).1 := rfl

theorem validateCore_probed (hu hb ds E : List Nat) :
    (validateCore hu hb ds E).probed =
      (classifyExpected hu hb ds E).2.2 ++
        (hu.filter fun a => decide (a ∉ E)) ++
        (hb.filter fun a => decide (a ∉ E)) := rfl

theorem validateCore_unexpected (hu hb ds E : List Nat) :
    (validateCore hu hb ds E).unexpected =
      addSysfsUnexpected E
        ((hu.filter fun a => decide (a ∉ E)) ++ (hb.filter fun a => decide (a ∉ E)))
        ds := rfl

theorem mem_hwFilter (l E : List Nat) (a : Nat) :
    a ∈ (l.filter fun a => decide (a ∉ E)) ↔ a ∈ l ∧ a ∉ E := by
  simp [List.mem_filter]

/-- Destructuring a successful `validate_bus` run. -/
theorem validate_bus_ok_elim {s : I2cScanner} {E : List Nat} {flag : Bool}
    {r : I2cValidationResult} (h : validate_bus s E flag = .ok r) :
    ∃ hu hb ds, s.scan_sysfs = .ok ds ∧ r = validateCore hu hb ds E ∧
      (flag = true → s.scan_hw_probe = .ok (hu, hb)) ∧
      (flag = false → hu = [] ∧ hb = []) := by
  cases flag
  · rcases hds : s.scan_sysfs with e | ds
    · simp [validate_bus, hds, Except.bind] at h
    · refine ⟨[], [], ds, rfl, ?_, by simp, by simp⟩
      simp only [validate_bus, hds, Except.bind, Except.pure, bind, pure] at h
      exact (Except.ok.inj h).symm
  · rcases hhw : s.scan_hw_probe with e | p
    · simp [validate_bus, hhw, Except.bind, bind] at h
    · rcases hds : s.scan_sysfs with e | ds
      · simp [validate_bus, hhw, hds, Except.bind, bind] at h
      · refine ⟨p.1, p.2, ds, rfl, ?_, by simp, by simp⟩
        simp only [validate_bus, hhw, hds, Except.bind, Except.pure, bind, pure] at h
        exact (Except.ok.inj h).symm

/-- C1: for every scanner, expected list and probe flag, a successful
`validate_bus` yields `present` and `missing` that are disjoint as sets
and whose union, as a set, is exactly the (de-duplicated) set of expected
addresses. -/
theorem validate_bus_present_missing_partition (s : I2cScanner) (E : List Nat)
    (flag : Bool) (r : I2cValidationResult) (h : validate_bus s E flag = .ok r) :
    (∀ a, ¬(a ∈ r.present ∧ a ∈ r.missing)) ∧
    (∀ a, (a ∈ r.present ∨ a ∈ r.missing) ↔ a ∈ E) := by
  obtain ⟨hu, hb, ds, -, rfl, -, -⟩ := validate_bus_ok_elim h
  constructor
  · intro a ⟨hp, hm⟩
    rw [validateCore_present, mem_classify_present] at hp
    rw [validateCore_missing, mem_classify_missing] at hm
    exact hm.2 hp.2
  · intro a
    rw [validateCore_present, mem_classify_present,
      validateCore_missing, mem_classify_missing]
    by_cases hc : a ∈ hu ∨ a ∈ hb ∨ a ∈ ds <;> aesop

/-- Concrete instance of C1: scanner sees `{0x1b}` in sysfs, expected
`{0x1b, 0x50}`; `0x1b` is not in both `present` and `missing`. -/
theorem validate_bus_present_missing_partition_witness :
    ¬(0x1b ∈ (I2cValidationResult.mk [0x50] [] [0x1b] []).present ∧
      0x1b ∈ (I2cValidationResult.mk [0x50] [] [0x1b] []).missing) :=
  (validate_bus_present_missing_partition ⟨.ok ([], []), .ok [0x1b]⟩
    [0x1b, 0x50] false ⟨[0x50], [], [0x1b], []⟩ (by decide)).1 0x1b

/-- The first loop never tags anything as probed when both hardware lists
are empty. -/
theorem classify_probed_nil (ds E : List Nat) :
    (classifyExpected [] [] ds E).2.2 = [] := by
  induction E with
  | nil => rfl
  | cons x rest ih =>
    simp only [classifyExpected]
    split_ifs with h1 h2 <;> simp_all

/-- C5: a successful `validate_bus` run with a well-formed scanner (its
hardware lists duplicate-free and mutually disjoint, as `scan_hw_probe`
guarantees) puts every probed address in exactly one of `present` and
`unexpected`, and `unexpected` never lists an address twice. -/
theorem validate_bus_probed_exactly_one (s : I2cScanner) (E : List Nat)
    (flag : Bool) (r : I2cValidationResult)
    (hwf : ∀ hu hb, s.scan_hw_probe = .ok (hu, hb) →
      hu.Nodup ∧ hb.Nodup ∧ ∀ a ∈ hu, a ∉ hb)
    (h : validate_bus s E flag = .ok r) :
    (∀ a ∈ r.probed,
      (a ∈ r.present ∧ a ∉ r.unexpected) ∨ (a ∉ r.present ∧ a ∈ r.unexpected)) ∧
    r.unexpected.Nodup := by
  obtain ⟨hu, hb, ds, -, rfl, hft, hff⟩ := validate_bus_ok_elim h
  have hwell : hu.Nodup ∧ hb.Nodup ∧ ∀ a ∈ hu, a ∉ hb := by
    cases flag
    · obtain ⟨rfl, rfl⟩ := hff rfl
      exact ⟨List.nodup_nil, List.nodup_nil, by simp⟩
    · exact hwf hu hb (hft rfl)
  obtain ⟨hhu, hhb, hdisj⟩ := hwell
  have hunexE : ∀ a ∈ (validateCore hu hb ds E).unexpected, a ∉ E := by
    intro a ha
    rw [validateCore_unexpected, mem_addSysfsUnexpected] at ha
    rcases ha with ha | ha
    · rcases List.mem_append.mp ha with ha | ha
      · exact ((mem_hwFilter hu E a).mp ha).2
      · exact ((mem_hwFilter hb E a).mp ha).2
    · exact ha.2
  constructor
  · intro a ha
    rw [validateCore_probed] at ha
    rcases List.mem_append.mp ha with ha | ha
    · rcases List.mem_append.mp ha with ha | ha
      · -- tagged in the first loop: expected and on the wire
        rw [mem_classify_probed] at ha
        left
        constructor
        · rw [validateCore_present, mem_classify_present]
          exact ⟨ha.1, by tauto⟩
        · intro hcon
          exact hunexE a hcon ha.1
      · -- extra hardware-unbound address
        obtain ⟨hahu, haE⟩ := (mem_hwFilter hu E a).mp ha
        right
        constructor
        · rw [validateCore_present, mem_classify_present]
          exact fun hc => haE hc.1
        · rw [validateCore_unexpected, mem_addSysfsUnexpected]
          exact Or.inl (List.mem_append.mpr (Or.inl ha))
    · -- extra hardware-bound address
      obtain ⟨hahb, haE⟩ := (mem_hwFilter hb E a).mp ha
      right
      constructor
      · rw [validateCore_present, mem_classify_present]
        exact fun hc => haE hc.1
      · rw [validateCore_unexpected, mem_addSysfsUnexpected]
        exact Or.inl (List.mem_append.mpr (Or.inr ha))
  · rw [validateCore_unexpected]
    refine addSysfsUnexpected_nodup E ds _ ?_
    rw [List.nodup_append]
    refine ⟨hhu.filter _, hhb.filter _, ?_⟩
    intro x hx hx2
    obtain ⟨hxu, -⟩ := (mem_hwFilter hu E x).mp hx
    obtain ⟨hxb, -⟩ := (mem_hwFilter hb E x).mp hx2
    exact hdisj x hxu hxb

/-- Concrete instance of C5: hardware sees unbound `{0x50}` and bound
`{0x1b}`, sysfs sees `{0x1b}`, expected `{0x50}`; the resulting
`unexpected` list `[0x1b]` has no duplicate. -/
theorem validate_bus_probed_exactly_one_witness :
    (I2cValidationResult.mk [] [0x1b] [0x50] [0x50, 0x1b]).unexpected.Nodup :=
  (validate_bus_probed_exactly_one ⟨.ok ([0x50], [0x1b]), .ok [0x1b]⟩ [0x50]
    true ⟨[], [0x1b], [0x50], [0x50, 0x1b]⟩
    (by
      intro hu hb hh
      injection hh with hh
      obtain ⟨rfl, rfl⟩ := Prod.mk.inj hh
      exact ⟨by decide, by decide, by decide⟩)
    (by decide)).2

/-- C6: with `enable_hw_probe = false`, `validate_bus` never consults the
scanner's hardware probe: the result only depends on the sysfs scan, the
hardware lists are taken to be empty, and the returned `probed` list is
empty. -/
theorem validate_bus_hw_probe_disabled (s s' : I2cScanner) (E : List Nat)
    (hss : s.scan_sysfs = s'.scan_sysfs) :
    validate_bus s E false = validate_bus s' E false ∧
    (validate_bus s E false =
      match s.scan_sysfs with
      | .ok ds => .ok (validateCore [] [] ds E)
      | .error e => .error e) ∧
    (∀ r, validate_bus s E false = .ok r → r.probed = []) := by
  refine ⟨?_, ?_, ?_⟩
  · simp only [validate_bus, hss, Bool.false_eq_true, if_false]
  · simp only [validate_bus, bind, Except.bind, pure, Except.pure]
    rcases s.scan_sysfs with e | ds <;> rfl
  · intro r h
    obtain ⟨hu, hb, ds, -, rfl, -, hff⟩ := validate_bus_ok_elim h
    obtain ⟨rfl, rfl⟩ := hff rfl
    rw [validateCore_probed, classify_probed_nil]
    rfl

/-- Concrete instance of C6: two scanners that agree on sysfs but differ
on the hardware probe (one of them would even fail it) give the same
`validate_bus` result when probing is disabled. -/
theorem validate_bus_hw_probe_disabled_witness :
    validate_bus ⟨.ok ([0x50], []), .ok [0x1b]⟩ [0x1b] false =
      validate_bus ⟨.error (.busNotFound 9), .ok [0x1b]⟩ [0x1b] false :=
  (validate_bus_hw_probe_disabled ⟨.ok ([0x50], []), .ok [0x1b]⟩
    ⟨.error (.busNotFound 9), .ok [0x1b]⟩ [0x1b] rfl).1

/-- C7: reconciling an empty expected set yields empty `present` and
`missing`, and `unexpected` is exactly (and, for well-formed scan lists,
without duplicates) the union of the sysfs and hardware scan lists. -/
theorem reconcile_empty_expected (hu hb ds : List Nat)
    (hhu : hu.Nodup) (hhb : hb.Nodup) (hdisj : ∀ a ∈ hu, a ∉ hb) :
    (validateCore hu hb ds []).present = [] ∧
    (validateCore hu hb ds []).missing = [] ∧
    (∀ a, a ∈ (validateCore hu hb ds []).unexpected ↔
      (a ∈ ds ∨ a ∈ hu ∨ a ∈ hb)) ∧
    (validateCore hu hb ds []).unexpected.Nodup := by
  refine ⟨rfl, rfl, ?_, ?_⟩
  · intro a
    rw [validateCore_unexpected, mem_addSysfsUnexpected, List.mem_append,
      mem_hwFilter, mem_hwFilter]
    simp only [List.not_mem_nil, not_false_iff, and_true]
    tauto
  · rw [validateCore_unexpected]
    refine addSysfsUnexpected_nodup _ _ _ ?_
    rw [List.nodup_append]
    refine ⟨hhu.filter _, hhb.filter _, ?_⟩
    intro x hx hx2
    obtain ⟨hxu, -⟩ := (mem_hwFilter hu [] x).mp hx
    obtain ⟨hxb, -⟩ := (mem_hwFilter hb [] x).mp hx2
    exact hdisj x hxu hxb

/-- Concrete instance of C7: with scan lists `hu = {0x50}`, `hb = {0x1b}`,
`ds = {0x1b}` and no expectations, `0x50` lands in `unexpected`. -/
theorem reconcile_empty_expected_witness :
    0x50 ∈ (validateCore [0x50] [0x1b] [0x1b] []).unexpected :=
  ((reconcile_empty_expected [0x50] [0x1b] [0x1b] (by decide) (by decide)
    (by decide)).2.2.1 0x50).mpr (Or.inr (Or.inl (by decide)))

/-- C3 refutation: `validate_bus` contains no address-range check at all.
With the out-of-range addresses `0x07` and `0x78` in the expected set it
returns a successful classification (both end up `missing`) instead of an
`AddressOutOfRange`-style error. -/
theorem validate_bus_no_range_check :
    validate_bus ⟨.ok ([], []), .ok []⟩ [0x07, 0x78] true =
      .ok ⟨[0x07, 0x78], [], [], []⟩ := by decide

/-- C3 amended: `validate_bus` never rejects out-of-range expected
addresses; when the scan lists contain only in-range addresses (as the
Linux scanner's always do), an expected address outside `0x08..=0x77` is
simply classified `missing`, and the run succeeds. -/
theorem validate_bus_out_of_range_goes_missing (s : I2cScanner) (E : List Nat)
    (flag : Bool) (a : Nat) (hu hb ds : List Nat)
    (hhw : flag = true → s.scan_hw_probe = .ok (hu, hb))
    (hhw' : flag = false → hu = [] ∧ hb = [])
    (hds : s.scan_sysfs = .ok ds)
    (hinr : ∀ x, x ∈ hu ∨ x ∈ hb ∨ x ∈ ds → x ∈ addrRange)
    (haE : a ∈ E) (haout : a ∉ addrRange) :
    validate_bus s E flag = .ok (validateCore hu hb ds E) ∧
    a ∈ (validateCore hu hb ds E).missing := by
  constructor
  · cases flag
    · obtain ⟨rfl, rfl⟩ := hhw' rfl
      simp only [validate_bus, hds, Bool.false_eq_true, if_false, bind,
        Except.bind, pure, Except.pure]
    · simp only [validate_bus, hhw rfl, hds, if_true, bind, Except.bind, pure,
        Except.pure]
  · rw [validateCore_missing, mem_classify_missing]
    exact ⟨haE, fun hc => haout (hinr a hc)⟩

/-- Concrete instance of the amended C3: expected `{0x07}` against a sysfs
scan seeing `{0x1b}`; `0x07` is classified `missing`, not rejected. -/
theorem validate_bus_out_of_range_goes_missing_witness :
    0x07 ∈ (validateCore [] [] [0x1b] [0x07]).missing :=
  (validate_bus_out_of_range_goes_missing ⟨.ok ([], []), .ok [0x1b]⟩ [0x07]
    true 0x07 [] [] [0x1b] (fun _ => rfl) (fun h => Bool.noConfusion h) rfl
    (by intro x hx; simp only [List.not_mem_nil, false_or] at hx
        simp only [List.mem_singleton] at hx; subst hx; decide)
    (by decide) (by decide)).2

/-! ## The hardware probe loop -/

/-- When no address hits a fatal error, the probe loop succeeds and
collects exactly the acknowledging addresses (`unbound`) and the
`EBUSY` addresses (`bound`), in visit order; every other per-address
outcome emits nothing. -/
theorem scanHwLoop_ok (busId : Nat) (f : Nat → OpenOutcome) :
    ∀ L : List Nat,
      (∀ a ∈ L, f a ≠ .ioNotFound ∧ f a ≠ .ioPermissionDenied) →
      scanHwLoop busId f L =
        .ok (L.filter (fun a => decide (f a = .opened true)),
             L.filter (fun a => decide (f a = .errnoErr EBUSY))) := by
  intro L
  induction L with
  | nil => intro _; rfl
  | cons a rest ih =>
    intro h
    have ha := h a (List.mem_cons_self a rest)
    have hrest := ih fun x hx => h x (List.mem_cons_of_mem a hx)
    cases hfa : f a with
    | opened ackOk =>
      simp only [scanHwLoop, hfa, hrest, Except.map, List.filter_cons]
      cases ackOk <;> simp [hfa]
    | errnoErr code =>
      simp only [scanHwLoop, hfa, hrest, Except.map, List.filter_cons]
      by_cases hc : code = EBUSY <;> simp [hfa, hc]
    | ioNotFound => exact absurd hfa ha.1
    | ioPermissionDenied => exact absurd hfa ha.2
    | ioOther =>
      simp only [scanHwLoop, hfa, hrest, Except.map, List.filter_cons]
      simp [hfa]

/-- If some address hits `ENOENT` on the bus path and none hits a
permission error, the probe loop aborts with `busNotFound`. -/
theorem scanHwLoop_notFound (busId : Nat) (f : Nat → OpenOutcome) :
    ∀ L : List Nat, (∃ a ∈ L, f a = .ioNotFound) →
      (∀ a ∈ L, f a ≠ .ioPermissionDenied) →
      scanHwLoop busId f L = .error (.busNotFound busId) := by
  intro L
  induction L with
  | nil => rintro ⟨a, ha, -⟩; exact absurd ha (List.not_mem_nil a)
  | cons a rest ih =>
    rintro ⟨x, hx, hfx⟩ hperm
    cases hfa : f a with
    | ioNotFound => simp [scanHwLoop, hfa]
    | ioPermissionDenied =>
      exact absurd hfa (hperm a (List.mem_cons_self a rest))
    | opened ackOk =>
      have hxr : x ∈ rest := by
        rcases List.mem_cons.mp hx with rfl | hxr
        · rw [hfa] at hfx; exact absurd hfx (by simp)
        · exact hxr
      have := ih ⟨x, hxr, hfx⟩ fun y hy => hperm y (List.mem_cons_of_mem a hy)
      simp [scanHwLoop, hfa, this, Except.map]
    | errnoErr code =>
      have hxr : x ∈ rest := by
        rcases List.mem_cons.mp hx with rfl | hxr
        · rw [hfa] at hfx; exact absurd hfx (by simp)
        · exact hxr
      have := ih ⟨x, hxr, hfx⟩ fun y hy => hperm y (List.mem_cons_of_mem a hy)
      simp [scanHwLoop, hfa, this, Except.map]
    | ioOther =>
      have hxr : x ∈ rest := by
        rcases List.mem_cons.mp hx with rfl | hxr
        · rw [hfa] at hfx; exact absurd hfx (by simp)
        · exact hxr
      have := ih ⟨x, hxr, hfx⟩ fun y hy => hperm y (List.mem_cons_of_mem a hy)
      simp [scanHwLoop, hfa, this, Except.map]

/-- If some address hits `EACCES`/`EPERM` and none hits `ENOENT`, the
probe loop aborts with `permissionDenied`. -/
theorem scanHwLoop_permissionDenied (busId : Nat) (f : Nat → OpenOutcome) :
    ∀ L : List Nat, (∃ a ∈ L, f a = .ioPermissionDenied) →
      (∀ a ∈ L, f a ≠ .ioNotFound) →
      scanHwLoop busId f L = .error (.permissionDenied busId) := by
  intro L
  induction L with
  | nil => rintro ⟨a, ha, -⟩; exact absurd ha (List.not_mem_nil a)
  | cons a rest ih =>
    rintro ⟨x, hx, hfx⟩ hnf
    cases hfa : f a with
    | ioPermissionDenied => simp [scanHwLoop, hfa]
    | ioNotFound => exact absurd hfa (hnf a (List.mem_cons_self a rest))
    | opened ackOk =>
      have hxr : x ∈ rest := by
        rcases List.mem_cons.mp hx with rfl | hxr
        · rw [hfa] at hfx; exact absurd hfx (by simp)
        · exact hxr
      have := ih ⟨x, hxr, hfx⟩ fun y hy => hnf y (List.mem_cons_of_mem a hy)
      simp [scanHwLoop, hfa, this, Except.map]
    | errnoErr code =>
      have hxr : x ∈ rest := by
        rcases List.mem_cons.mp hx with rfl | hxr
        · rw [hfa] at hfx; exact absurd hfx (by simp)
        · exact hxr
      have := ih ⟨x, hxr, hfx⟩ fun y hy => hnf y (List.mem_cons_of_mem a hy)
      simp [scanHwLoop, hfa, this, Except.map]
    | ioOther =>
      have hxr : x ∈ rest := by
        rcases List.mem_cons.mp hx with rfl | hxr
        · rw [hfa] at hfx; exact absurd hfx (by simp)
        · exact hxr
      have := ih ⟨x, hxr, hfx⟩ fun y hy => hnf y (List.mem_cons_of_mem a hy)
      simp [scanHwLoop, hfa, this, Except.map]

/-- C2: classification of per-address open outcomes by `scan_hw_probe`
over `0x08..=0x77`: with no fatal outcome the scan succeeds, collecting
exactly the acknowledged addresses as `unbound` and the `EBUSY` addresses
as `bound` (any other per-address error is swallowed and scanning
continues); an `ENOENT` on the bus path aborts the whole scan with
`busNotFound`; an `EACCES`/`EPERM` aborts it with `permissionDenied`. -/
theorem scan_hw_probe_classification (s : LinuxI2cScanner) :
    ((∀ a ∈ addrRange,
        s.openDev a ≠ .ioNotFound ∧ s.openDev a ≠ .ioPermissionDenied) →
      s.scan_hw_probe =
        .ok (addrRange.filter (fun a => decide (s.openDev a = .opened true)),
             addrRange.filter (fun a => decide (s.openDev a = .errnoErr EBUSY)))) ∧
    ((∃ a ∈ addrRange, s.openDev a = .ioNotFound) →
      (∀ a ∈ addrRange, s.openDev a ≠ .ioPermissionDenied) →
      s.scan_hw_probe = .error (.busNotFound s.bus_id)) ∧
    ((∃ a ∈ addrRange, s.openDev a = .ioPermissionDenied) →
      (∀ a ∈ addrRange, s.openDev a ≠ .ioNotFound) →
      s.scan_hw_probe = .error (.permissionDenied s.bus_id)) :=
  ⟨fun h => scanHwLoop_ok s.bus_id s.openDev addrRange h,
   fun h h' => scanHwLoop_notFound s.bus_id s.openDev addrRange h h',
   fun h h' => scanHwLoop_permissionDenied s.bus_id s.openDev addrRange h h'⟩

/-- A demonstration hardware oracle: `0x1b` is driver-bound (`EBUSY`),
`0x50` acknowledges a quick-write, everything else gives a swallowed
per-address I/O error. -/
def demoHwScanner : LinuxI2cScanner :=
  { bus_id := 3
    openDev := fun a =>
      if a = 0x1b then .errnoErr 16
      else if a = 0x50 then .opened true
      else .ioOther
    pathExists := fun _ => false }

/-- Concrete instance of C2: on `demoHwScanner` the probe succeeds with
`unbound = [0x50]` and `bound = [0x1b]`. -/
theorem scan_hw_probe_classification_witness :
    demoHwScanner.scan_hw_probe = .ok ([0x50], [0x1b]) := by
  have h := (scan_hw_probe_classification demoHwScanner).1 (by decide)
  rw [h]
  decide

/-! ## The sysfs scan -/

/-- C8: for every bus and every address in `0x08..=0x77`, the sysfs scan
reports the address exactly when `/sys/bus/i2c/devices/<bus>-<AAAA>`
exists, where `<AAAA>` is the address in exactly four lowercase
zero-padded hex digits (`0x1b` becomes `"001b"`). -/
theorem scan_sysfs_characterization (s : LinuxI2cScanner) (a : Nat)
    (ha : a ∈ addrRange) :
    (∀ ds, s.scan_sysfs = .ok ds →
      (a ∈ ds ↔
        s.pathExists
          ("/sys/bus/i2c/devices/" ++ Nat.repr s.bus_id ++ "-" ++ hex4 a) =
          true)) ∧
    (hex4 a).length = 4 ∧
    (∀ c ∈ (hex4 a).data, c ∈ "0123456789abcdef".data) ∧
    hex4 0x1b = "001b" := by
  have hfmt : ∀ x ∈ addrRange,
      (hex4 x).length = 4 ∧ ∀ c ∈ (hex4 x).data, c ∈ "0123456789abcdef".data := by
    decide
  refine ⟨?_, (hfmt a ha).1, (hfmt a ha).2, by decide⟩
  intro ds h
  have hds : ds = addrRange.filter
      fun addr => s.pathExists (sysfsDevPath s.bus_id addr) :=
    (Except.ok.inj h).symm
  subst hds
  rw [List.mem_filter]
  simp only [ha, true_and]
  rfl

/-- Concrete instance of C8: on a filesystem where exactly
`/sys/bus/i2c/devices/3-001b` exists, the sysfs scan of bus 3 reports
address `0x1b`. -/
theorem scan_sysfs_characterization_witness :
    0x1b ∈ (addrRange.filter fun addr =>
      (fun p => p = "/sys/bus/i2c/devices/3-001b") (sysfsDevPath 3 addr)) :=
  ((scan_sysfs_characterization
      ⟨3, fun _ => .ioOther, fun p => p = "/sys/bus/i2c/devices/3-001b"⟩
      0x1b (by decide)).1 _ rfl).mpr (by decide)

/-! ## Bus enumeration (`discover_buses`) and `full_system_scan`

`discover_buses` reads `/dev`; we model the directory listing as the list
of entry basenames, in directory order.  `entry.path()` is then
`"/dev/" ++ name`. -/

/-- `str::starts_with`. -/
def strStartsWith (s pre : String) : Bool := pre.data.isPrefixOf s.data

/-- `str::strip_prefix` (as used via `and_then`): `some` of the rest when
`pre` is a prefix of `s`, else `none`. -/
def dropPre (pre s : String) : Option String :=
  if strStartsWith s pre then some ⟨s.data.drop pre.data.length⟩ else none

/-- `Path::file_name` for the paths built here: the part after the last
`/`. -/
def fileName (p : String) : String :=
  ⟨p.data.foldl (fun acc c => if c = '/' then [] else acc ++ [c]) []⟩

/-- Rust `str::parse::<u8>`: an optional leading `+`, then one or more
ASCII digits, value at most 255; anything else is `none`. -/
def parseU8 (s : String) : Option Nat :=
  let cs := match s.data with
    | '+' :: rest => rest
    | cs => cs
  if cs.isEmpty then none
  else if cs.all Char.isDigit then
    let v := cs.foldl (fun acc c => acc * 10 + (c.toNat - 48)) 0
    if v ≤ 255 then some v else none
  else none

/-- The sort key of `discover_buses`:
`p.file_name() … strip_prefix("i2c-") … parse::<u8>().unwrap_or(0)`. -/
def busSortKey (p : String) : Nat :=
  ((dropPre "i2c-" (fileName p)).bind parseU8).getD 0

/-- Stable insertion into a list sorted by `busSortKey` (the new element
goes after all elements with a key `≤` its own, as a stable sort does). -/
def insertByKey (x : String) : List String → List String
  | [] => [x]
  | y :: ys =>
    if busSortKey y ≤ busSortKey x then y :: insertByKey x ys
    else x :: y :: ys

/-- Stable sort by `busSortKey`, modelling `Vec::sort_by_key`. -/
def sortByBusKey (l : List String) : List String :=
  l.foldl (fun acc x => insertByKey x acc) []

/-- `discover_buses`, over the basenames of the `/dev` entries: keep the
paths whose basename starts with `"i2c-"`, then sort by `busSortKey`. -/
def discover_buses (devEntries : List String) : List String :=
  let buses := (devEntries.map fun name => "/dev/" ++ name).filter
    fun p => strStartsWith (fileName p) "i2c-"
  sortByBusKey buses

theorem insertByKey_perm (x : String) :
    ∀ l : List String, (insertByKey x l).Perm (x :: l) := by
  intro l
  induction l with
  | nil => simp [insertByKey]
  | cons y ys ih =>
    simp only [insertByKey]
    split_ifs with h
    · exact ((ih.cons y).trans (List.Perm.swap x y ys))
    · exact List.Perm.refl _

theorem mem_insertByKey (x a : String) (l : List String) :
    a ∈ insertByKey x l ↔ a = x ∨ a ∈ l := by
  rw [(insertByKey_perm x l).mem_iff, List.mem_cons]

theorem sortByBusKey_perm : ∀ (l acc : List String),
    (l.foldl (fun acc x => insertByKey x acc) acc).Perm (acc ++ l) := by
  intro l
  induction l with
  | nil => intro acc; simp
  | cons x rest ih =>
    intro acc
    have h1 := ih (insertByKey x acc)
    have h2 : (insertByKey x acc ++ rest).Perm ((x :: acc) ++ rest) :=
      (insertByKey_perm x acc).append_right rest
    have h3 : ((x :: acc) ++ rest).Perm (acc ++ x :: rest) :=
      List.perm_middle.symm
    exact h1.trans (h2.trans h3)

theorem insertByKey_sorted (x : String) :
    ∀ l : List String,
      l.Pairwise (fun p q => busSortKey p ≤ busSortKey q) →
      (insertByKey x l).Pairwise (fun p q => busSortKey p ≤ busSortKey q) := by
  intro l
  induction l with
  | nil => intro _; simp [insertByKey]
  | cons y ys ih =>
    intro h
    rw [List.pairwise_cons] at h
    simp only [insertByKey]
    split_ifs with hk
    · rw [List.pairwise_cons]
      refine ⟨?_, ih h.2⟩
      intro z hz
      rcases (mem_insertByKey x z ys).mp hz with rfl | hz
      · exact hk
      · exact h.1 z hz
    · rw [List.pairwise_cons]
      refine ⟨?_, List.pairwise_cons.mpr h⟩
      intro z hz
      rcases List.mem_cons.mp hz with rfl | hz
      · exact Nat.le_of_not_le hk
      · exact le_trans (Nat.le_of_not_le hk) (h.1 z hz)

theorem sortByBusKey_sorted : ∀ (l acc : List String),
    acc.Pairwise (fun p q => busSortKey p ≤ busSortKey q) →
    (l.foldl (fun acc x => insertByKey x acc) acc).Pairwise
      (fun p q => busSortKey p ≤ busSortKey q) := by
  intro l
  induction l with
  | nil => intro acc h; exact h
  | cons x rest ih => intro acc h; exact ih _ (insertByKey_sorted x acc h)

/-- C4 refutation: `discover_buses` does **not** discard entries whose
suffix after `i2c-` fails to parse as a number: `i2c-foo` is kept (so the
result is not "exactly the numerically-suffixed entries", and its order
cannot be strictly ascending by a numeric suffix it does not have). -/
theorem discover_buses_keeps_nonnumeric :
    discover_buses ["i2c-foo"] = ["/dev/i2c-foo"] ∧ parseU8 "foo" = none := by
  decide

/-- C4 amended: `discover_buses` returns every `/dev` entry whose basename
starts with `"i2c-"` — numeric suffix or not — as `/dev/<name>`, ordered
non-decreasingly by the suffix parsed as a `u8` (`unwrap_or(0)`, so an
unparsable suffix sorts with key 0); in particular distinct numeric
suffixes come out in ascending numeric order (`i2c-10` after `i2c-9`). -/
theorem discover_buses_characterization (devEntries : List String) :
    (discover_buses devEntries).Perm
      ((devEntries.map fun name => "/dev/" ++ name).filter
        fun p => strStartsWith (fileName p) "i2c-") ∧
    (discover_buses devEntries).Pairwise
      (fun p q => busSortKey p ≤ busSortKey q) ∧
    discover_buses ["i2c-9", "i2c-10"] = ["/dev/i2c-9", "/dev/i2c-10"] := by
  refine ⟨?_, ?_, by decide⟩
  · simpa using sortByBusKey_perm
      ((devEntries.map fun name => "/dev/" ++ name).filter
        fun p => strStartsWith (fileName p) "i2c-") []
  · exact sortByBusKey_sorted _ [] (by simp)

/-- `I2cBusReport` of `src/i2c.rs`. -/
structure I2cBusReport where
  bus_path : String
  kernel_detected : List Nat
  hardware_unbound : List Nat
  hardware_bound : List Nat
  deriving Repr, DecidableEq

/-- Outcome of `full_system_scan`: the `.expect("invalid bus string")`
call can panic, otherwise the function returns `Result`. -/
inductive ScanOutcome where
  | panic (msg : String)
  | fatal (e : ScanErr)
  | ok (reports : List I2cBusReport)
  deriving Repr, DecidableEq

/-- The per-bus loop of `full_system_scan`: for each discovered path,
derive the bus id with
`strip_prefix("/dev/i2c-").and_then(parse::<u8>).expect("invalid bus string")`
(panicking when it fails), then run the optional hardware probe and the
sysfs scan, and collect one report per bus. -/
def fullScanLoop (openDev : Nat → Nat → OpenOutcome)
    (pathExists : String → Bool) (enable_hw_probe : Bool) :
    List String → ScanOutcome
  | [] => .ok []
  | path :: rest =>
    match (dropPre "/dev/i2c-" path).bind parseU8 with
    | none => .panic "invalid bus string"
    | some busId =>
      let scanner : LinuxI2cScanner := ⟨busId, openDev busId, pathExists⟩
      match (if enable_hw_probe then scanner.scan_hw_probe else .ok ([], [])) with
      | .error e => .fatal e
      | .ok (hu, hb) =>
        match scanner.scan_sysfs with
        | .error e => .fatal e
        | .ok ds =>
          match fullScanLoop openDev pathExists enable_hw_probe rest with
          | .ok reports => .ok (⟨path, ds, hu, hb⟩ :: reports)
          | other => other

/-- `full_system_scan(enable_hw_probe)` over a modelled `/dev` listing,
hardware oracle and filesystem oracle. -/
def full_system_scan (devEntries : List String)
    (openDev : Nat → Nat → OpenOutcome) (pathExists : String → Bool)
    (enable_hw_probe : Bool) : ScanOutcome :=
  fullScanLoop openDev pathExists enable_hw_probe (discover_buses devEntries)

/-- C10: a `/dev` entry `i2c-foo` — kept by `discover_buses` although its
suffix does not parse as a `u8` — makes `full_system_scan` hit the panic
branch of the bus-id `expect` instead of returning a result. -/
theorem full_system_scan_panic_reachable :
    "/dev/i2c-foo" ∈ discover_buses ["i2c-foo"] ∧
    ((dropPre "/dev/i2c-" "/dev/i2c-foo").bind parseU8 = none) ∧
    full_system_scan ["i2c-foo"] (fun _ _ => .ioOther) (fun _ => false) false =
      .panic "invalid bus string" := by
  decide

/-! ## The os-release parser (`src/os_release.rs`) -/

/-- The double-quote character. -/
def dquoteChar : Char := Char.ofNat 34

/-- The single-quote character. -/
def squoteChar : Char := Char.ofNat 39

/-- `str::trim` (ASCII whitespace, which covers the inputs at hand). -/
def trimChars (cs : List Char) : List Char :=
  ((cs.dropWhile Char.isWhitespace).reverse.dropWhile Char.isWhitespace).reverse

/-- `str::trim_matches(m)`: strip every leading and trailing `m`. -/
def trimMatchesChar (m : Char) (cs : List Char) : List Char :=
  ((cs.dropWhile (· = m)).reverse.dropWhile (· = m)).reverse

/-- `str::split_once(c)`: split at the first occurrence of `c`. -/
def splitOnceChar (c : Char) : List Char → Option (List Char × List Char)
  | [] => none
  | x :: xs =>
    if x = c then some ([], xs)
    else (splitOnceChar c xs).map fun r => (x :: r.1, r.2)

/-- `HashMap::insert` on an association list: overwrite the key if
present, else append. -/
def mapInsert (k v : String) : List (String × String) → List (String × String)
  | [] => [(k, v)]
  | (k', v') :: rest =>
    if k' = k then (k, v) :: rest else (k', v') :: mapInsert k v rest

/-- `parse_os_release_from_reader`, over the lines of the reader: skip
blank and `#` lines, split each remaining line at the first `=`, trim the
key, and trim then quote-strip (`"` first, then `'`) the value. -/
def parse_os_release_from_reader (lines : List String) :
    List (String × String) :=
  lines.foldl
    (fun map raw =>
      let line := trimChars raw.data
      if line.isEmpty ∨ line.headD ' ' = '#' then map
      else
        match splitOnceChar '=' line with
        | some (k, v) =>
          mapInsert ⟨trimChars k⟩
            ⟨trimMatchesChar squoteChar (trimMatchesChar dquoteChar (trimChars v))⟩
            map
        | none => map)
    []

/-- The lines of the mock os-release text of the
`read_os_id_and_codename` test: a leading blank line, `ID=debian`,
a double-quoted codename, a comment, a leading-whitespace assignment and
a whitespace-only final line. -/
def osReleaseTestLines : List String :=
  ["", "ID=debian", "VERSION_CODENAME=\"forky\"", "# This is a comment",
   "        EXTRA_VAR=value", "    "]

/-- C9: the parser yields exactly the three keys `ID`, `VERSION_CODENAME`
and `EXTRA_VAR`, with surrounding quotes stripped from the values. -/
theorem parse_os_release_test :
    parse_os_release_from_reader osReleaseTestLines =
      [("ID", "debian"), ("VERSION_CODENAME", "forky"),
       ("EXTRA_VAR", "value")] := by
  decide
